import Mathlib

/-!
Verification development for the per-user retrieval-index engine in
`backend/app/rag/index.py`.

The Python module keeps, per namespace (user id), a FAISS flat inner-product
index (`faiss.index` file) and a JSON docstore (`docstore.json` file) mapping
opaque string ids to records `{"page_content": str, "metadata": dict}`.
We embed the module shallowly:

* Python dicts of string keys/values become insertion-ordered association
  lists (`SDict`); the docstore becomes an insertion-ordered list of
  `(id, DocRec)` pairs, which is faithful because Python dicts preserve
  insertion order and `json.dump`/`json.load` preserve key order.
* The sentence-transformers embedding model, the FAISS search routine and the
  `uuid.uuid4()` stream are oracle functions collected in `Env`; a batch
  `model.encode` call fails as a whole when any individual text fails
  (`_embed_texts` is all-or-nothing), matching the Python call that raises.
* Embedding vectors are finite integer sequences (`Vec`); the claims under
  study never compute with the float components, only with their arrangement.
* File contents are modelled by `FileData`: a well-formed docstore JSON blob,
  a well-formed FAISS blob, a zero-length file, or undeserializable bytes.
  Functions that can raise return `Except Err`.
-/

namespace RagModel

/-- Association-list model of a Python `dict[str, str]` (metadata dicts).
Keys are unique in every dict the Python code can build; lookup returns the
first (hence only) binding. -/
abbrev SDict := List (String × String)

/-- Model of `d.get(k)`: first binding of key `k`, if any. -/
def dget : SDict → String → Option String
  | [], _ => none
  | p :: d, k => if p.1 = k then some p.2 else dget d k

/-- Model of `d[k] = v`: replace the binding in place if the key is present,
else append a new binding (Python dicts keep the original position of an
updated key and append fresh keys). -/
def dset : SDict → String → String → SDict
  | [], k, v => [(k, v)]
  | p :: d, k, v => if p.1 = k then (k, v) :: d else p :: dset d k v

/-- Model of `d.setdefault(k, v)`. -/
def dsetdefault (d : SDict) (k v : String) : SDict :=
  match dget d k with
  | some _ => d
  | none => d ++ [(k, v)]

/-- Model of `a.update(b)`: apply the bindings of `b` over `a`, in order. -/
def dupdate (a b : SDict) : SDict :=
  b.foldl (fun acc kv => dset acc kv.1 kv.2) a

/-- Keys of a dict are pairwise distinct (every dict a Python program holds
satisfies this; association lists can violate it, so theorems that depend on
key uniqueness assume it explicitly). -/
def NodupKeys (d : SDict) : Prop := (d.map Prod.fst).Nodup

/-- ASCII whitespace stripped by Python `str.strip()` (the inputs in scope are
ASCII, so the unicode cases of `str.strip` do not arise). -/
def isPySpace (c : Char) : Bool :=
  c = ' ' || c = '\t' || c = '\n' || c = '\x0d' || c = '\x0b' || c = '\x0c'

/-- Model of `s.replace("\x00", " ")`. -/
def replaceNul (l : List Char) : List Char :=
  l.map (fun c => if c = '\x00' then ' ' else c)

/-- Model of `re.sub(r"[ \t]+\n", "\n", s)`: a space or tab is deleted exactly
when every character between it and the next newline is a space or tab and
that newline exists; processing the string from the right, this is the rule
"drop a space/tab whose processed suffix starts with a newline". -/
def squashSpaceBeforeNewline (l : List Char) : List Char :=
  l.foldr (fun c acc =>
    if (c = ' ' || c = '\t') && acc.head? = some '\n' then acc else c :: acc) []

/-- Model of `re.sub(r"\n{3,}", "\n\n", s)`: in every maximal run of three or
more newlines exactly two survive; from the right, drop a newline whose
processed suffix already starts with two newlines. -/
def squashNewlines (l : List Char) : List Char :=
  l.foldr (fun c acc =>
    if c = '\n' && acc.head? = some '\n' && (acc.drop 1).head? = some '\n' then acc
    else c :: acc) []

/-- Model of Python `str.strip()` on ASCII text. -/
def stripChars (l : List Char) : List Char :=
  ((l.dropWhile isPySpace).reverse.dropWhile isPySpace).reverse

/-- Embedding of `_clean_text`: NUL to space, trailing whitespace before a
newline removed, runs of three or more newlines collapsed to two, then strip. -/
def cleanText (s : String) : String :=
  String.mk (stripChars (squashNewlines (squashSpaceBeforeNewline (replaceNul s.data))))

/-- Model of `query.strip()` used by `rag_search`. -/
def pyStrip (s : String) : String := String.mk (stripChars s.data)

/-- Embedding vector; float components are modelled as integers because the
properties verified here never do arithmetic on them. -/
abbrev Vec := List Int

/-- Stored record, the value side of one docstore entry
`{"page_content": ..., "metadata": ...}` (the id of the `DocRec` dataclass is
the docstore key). -/
structure DocRec where
  page_content : String
  metadata : SDict
deriving DecidableEq, Repr

/-- Docstore: insertion-ordered mapping from id to record, as serialized in
`docstore.json`. -/
abbrev Docstore := List (String × DocRec)

/-- FAISS `IndexFlatIP`: a dimension and the rows added so far, in order. -/
structure FaissIndex where
  d : Nat
  rows : List Vec
deriving DecidableEq, Repr

/-- Model of `index.ntotal`. -/
def FaissIndex.ntotal (i : FaissIndex) : Nat := i.rows.length

/-- Embedding of `_build_empty_index(d)`. -/
def buildEmptyIndex (d : Nat) : FaissIndex := ⟨d, []⟩

/-- Model of `index.add(vectors)`: rows are appended in order. -/
def FaissIndex.add (i : FaissIndex) (vs : List Vec) : FaissIndex := ⟨i.d, i.rows ++ vs⟩

/-- Content of one on-disk file: a deserializable docstore JSON blob, a
deserializable FAISS blob, a zero-length file, or bytes on which the
corresponding reader raises. -/
inductive FileData
  | docJson (ds : Docstore)
  | faissBlob (idx : FaissIndex)
  | emptyFile
  | corrupt
deriving DecidableEq, Repr

/-- On-disk state of one namespace: the two files at the paths returned by
`_paths_for_user` (`faiss.index` and `docstore.json`), each possibly absent. -/
structure FS where
  faissFile : Option FileData
  docFile : Option FileData
deriving DecidableEq, Repr

/-- Exceptions the Python code can raise in the embedded fragment. -/
inductive Err
  | jsonDecode
  | faissRead
  | embedFail
deriving DecidableEq, Repr

/-- Oracles the engine consumes: the sentence-transformers model (which may
fail on a given text), the FAISS search routine (scores row, ids row), and the
`uuid.uuid4()` stream indexed by draw position. -/
structure Env where
  embed : String → Option Vec
  fsearch : List Vec → Vec → Nat → List Int × List Int
  freshId : Nat → String

/-- Embedding of `_embed_texts`: one `model.encode` call over the whole batch,
failing as a whole if any single text fails. -/
def embedTexts (e : Env) : List String → Option (List Vec)
  | [] => some []
  | t :: ts =>
    match e.embed t, embedTexts e ts with
    | some v, some vs => some (v :: vs)
    | _, _ => none

/-- Embedding of the repeated idiom `int(_embed_texts(["dummy"]).shape[1])`. -/
def dummyDim (e : Env) : Except Err Nat :=
  match embedTexts e ["dummy"] with
  | none => .error .embedFail
  | some vs => .ok (vs.headD []).length

/-- Embedding of `_load_docstore(path)`: a missing file yields `{}`; a present
file is fed to `json.load`, which raises unless it holds a docstore blob
(a zero-length file is invalid JSON and raises too). -/
def loadDocstore : Option FileData → Except Err Docstore
  | none => .ok []
  | some (.docJson ds) => .ok ds
  | some _ => .error .jsonDecode

/-- Embedding of `_load_or_build(user_id)`: load the docstore, then read the
FAISS file when it exists and is non-empty (raising if unreadable), else build
an empty index whose dimension comes from embedding `"dummy"`. -/
def loadOrBuild (e : Env) (fs : FS) : Except Err (FaissIndex × Docstore) :=
  match loadDocstore fs.docFile with
  | .error er => .error er
  | .ok ds =>
    match fs.faissFile with
    | some (.faissBlob idx) => .ok (idx, ds)
    | some .emptyFile =>
      match dummyDim e with
      | .error er => .error er
      | .ok d => .ok (buildEmptyIndex d, ds)
    | some _ => .error .faissRead
    | none =>
      match dummyDim e with
      | .error er => .error er
      | .ok d => .ok (buildEmptyIndex d, ds)

/-- Embedding of `save_local`: after both `os.replace` calls the namespace
holds the serialized index and docstore. -/
def saveLocal (_fs : FS) (idx : FaissIndex) (ds : Docstore) : FS :=
  { faissFile := some (.faissBlob idx), docFile := some (.docJson ds) }

/-- States of the namespace directory visible at the two canonical paths
during `save_local`: before any rename (temporary-file writes do not touch the
canonical paths), after `os.replace` of the FAISS file, and after `os.replace`
of the docstore inside `_save_docstore`. A crash between the two renames
leaves the middle state on disk. -/
def saveStates (fs : FS) (idx : FaissIndex) (ds : Docstore) : List FS :=
  [fs, { fs with faissFile := some (.faissBlob idx) }, saveLocal fs idx ds]

/-- Input chunk as received by `upsert_chunks_for_source`: either not a
mapping at all (skipped by the `isinstance` check) or a mapping carrying
`str(c.get("text", ""))` and the optional `c.get("meta")` sub-dict. -/
inductive Chunk
  | nonDict
  | dict (text : String) (meta : Option SDict)
deriving DecidableEq, Repr

/-- Body of the cleaning loop in step 2 of `upsert_chunks_for_source`: skip
non-mappings, clean the text, skip empties, and merge the per-chunk metadata
over a copy of the default metadata. -/
def cleanChunk (md0 : SDict) : Chunk → Option DocRec
  | .nonDict => none
  | .dict text meta =>
    let t := cleanText text
    if t = "" then none
    else some ⟨t, dupdate md0 (meta.getD [])⟩

/-- Predicate for a chunk that survives the cleaning loop: a mapping whose
normalized text is non-empty (independent of the default metadata). -/
def isValidChunk : Chunk → Bool
  | .nonDict => false
  | .dict text _ => decide (¬ cleanText text = "")

/-- Model of the id-assignment loop `for rec in cleaned_chunks:
remaining[str(uuid.uuid4())] = rec`: each record gets the next id from the
uuid stream; ids are fresh, so each assignment appends. -/
def attachIds (e : Env) : Nat → List DocRec → Docstore
  | _, [] => []
  | n, r :: rs => (e.freshId n, r) :: attachIds e (n + 1) rs

/-- Embedding of the index-rebuild block that appears verbatim in both
`upsert_chunks_for_source` (step 1) and `delete_source`: when records remain,
re-embed their texts in order and bulk-add them into a fresh flat index; when
none remain, build a brand-new empty index of the model dimension. -/
def rebuildIndex (e : Env) (ds : Docstore) : Except Err FaissIndex :=
  if ds.isEmpty then
    match dummyDim e with
    | .error er => .error er
    | .ok d => .ok (buildEmptyIndex d)
  else
    match embedTexts e (ds.map (fun p => p.2.page_content)) with
    | none => .error .embedFail
    | some embs => .ok ((buildEmptyIndex (embs.headD []).length).add embs)

/-- Model of `source = source or "uploaded"`: the falsy empty string is
replaced by the default label. -/
def coerceSource (s : String) : String := if s = "" then "uploaded" else s

/-- Model of `metadata = dict(metadata or {}); metadata.setdefault("source",
source)`. -/
def defaultMeta (metadata : Option SDict) (source : String) : SDict :=
  dsetdefault (metadata.getD []) "source" source

/-- Records whose metadata source differs from the target, in store order:
the dict comprehension of `upsert_chunks_for_source` step 1 and the `keep`
dict of `delete_source`. -/
def keepOther (ds : Docstore) (source : String) : Docstore :=
  ds.filter (fun p => decide (¬ dget p.2.metadata "source" = some source))

/-- Number of records whose metadata source equals the target: the `removed`
counter of `delete_source`. -/
def countMatching (ds : Docstore) (source : String) : Nat :=
  ds.countP (fun p => decide (dget p.2.metadata "source" = some source))

/-- Embedding of `upsert_chunks_for_source(user_id, source, chunks, metadata)`.
The empty source is coerced to `"uploaded"` by `source = source or "uploaded"`;
the default metadata receives `source` via `setdefault`; records of the target
source are dropped; the index is rebuilt from the remainder; valid chunks are
embedded, appended and persisted. The loaded index is discarded in every path,
as in the source. -/
def upsertChunksForSource (e : Env) (fs : FS) (source0 : String)
    (chunks : List Chunk) (metadata : Option SDict) : Except Err (Nat × FS) :=
  let source := coerceSource source0
  let md0 := defaultMeta metadata source
  match loadOrBuild e fs with
  | .error er => .error er
  | .ok (_idx, docstore) =>
    let remaining := keepOther docstore source
    match rebuildIndex e remaining with
    | .error er => .error er
    | .ok index =>
      let cleaned := chunks.filterMap (cleanChunk md0)
      if cleaned.isEmpty then
        .ok (0, saveLocal fs index remaining)
      else
        match embedTexts e (cleaned.map (fun r => r.page_content)) with
        | none => .error .embedFail
        | some vecs =>
          .ok (cleaned.length,
               saveLocal fs (index.add vecs) (remaining ++ attachIds e 0 cleaned))

/-- Embedding of `delete_source(user_id, source)`: on an empty docstore return
0; split the docstore into matching and kept records; when nothing matched
return 0 without writing; otherwise rebuild the index from the kept records
and persist. -/
def deleteSource (e : Env) (fs : FS) (source : String) : Except Err (Nat × FS) :=
  match loadOrBuild e fs with
  | .error er => .error er
  | .ok (_idx, docstore) =>
    if docstore.isEmpty then .ok (0, fs)
    else
      let keep := keepOther docstore source
      let removed := countMatching docstore source
      if removed = 0 then .ok (0, fs)
      else
        match rebuildIndex e keep with
        | .error er => .error er
        | .ok index => .ok (removed, saveLocal fs index keep)

/-- Search hit `{"text": ..., "metadata": ..., "score": ...}`. -/
structure Hit where
  text : String
  metadata : SDict
  score : Int
deriving DecidableEq, Repr

/-- Embedding of `rag_search(user_id, query, k)`: empty result on an empty
index or blank query; otherwise embed the query, run the FAISS search with
`min(k, max(1, ntotal))`, then walk `zip(idxs[0], scores[0])`, discarding any
rank outside `[0, len(items))` and emitting the record at each valid rank in
current docstore iteration order. -/
def ragSearch (e : Env) (fs : FS) (query : String) (k : Nat) : Except Err (List Hit) :=
  match loadOrBuild e fs with
  | .error er => .error er
  | .ok (index, docstore) =>
    if index.ntotal = 0 ∨ pyStrip query = "" then .ok []
    else
      match e.embed query with
      | none => .error .embedFail
      | some qv =>
        let res := e.fsearch index.rows qv (min k (max 1 index.ntotal))
        let items := docstore
        .ok ((res.2.zip res.1).filterMap (fun (rs : Int × Int) =>
          if rs.1 < 0 ∨ (items.length : Int) ≤ rs.1 then none
          else
            match items.get? rs.1.toNat with
            | some kv => some ⟨kv.2.page_content, kv.2.metadata, rs.2⟩
            | none => none))

/-- One mutation of a namespace, for stating the alignment invariant over
arbitrary operation sequences. -/
inductive Op
  | up (source : String) (chunks : List Chunk) (metadata : Option SDict)
  | del (source : String)

/-- Run one mutation. -/
def applyOp (e : Env) (fs : FS) : Op → Except Err (Nat × FS)
  | .up s cs md => upsertChunksForSource e fs s cs md
  | .del s => deleteSource e fs s

/-- Run a sequence of mutations, stopping at the first raised exception. -/
def runOps (e : Env) (fs : FS) : List Op → Option FS
  | [] => some fs
  | op :: rest =>
    match applyOp e fs op with
    | .ok (_, fs') => runOps e fs' rest
    | .error _ => none

/-- Invariant I1 on the persisted state: when both files hold well-formed
blobs, the index has exactly one row per docstore record and the row at
position i is the embedding of the text of the record at position i. States
with missing or malformed files are not constrained. -/
def alignedB (e : Env) (fs : FS) : Bool :=
  match fs.faissFile, fs.docFile with
  | some (.faissBlob idx), some (.docJson ds) =>
    idx.rows.length == ds.length &&
      (ds.zip idx.rows).all (fun p => e.embed p.1.2.page_content == some p.2)
  | _, _ => true

/-- Concrete oracle environment for witnesses: every text embeds to the
one-component vector holding its length, FAISS search returns nothing, and
the uuid stream yields decimal counters. -/
def envW : Env :=
  ⟨fun s => some [(s.length : Int)], fun _ _ _ => ([], []), fun n => toString n⟩

/-- Oracle environment whose embedding model fails on the text `"bad"`. -/
def envBad : Env :=
  ⟨fun s => if s = "bad" then none else some [(s.length : Int)],
   fun _ _ _ => ([], []), fun n => toString n⟩

/-- Oracle environment whose FAISS search returns one out-of-range negative
rank, one valid rank and one out-of-range large rank. -/
def envS : Env :=
  ⟨fun s => some [(s.length : Int)],
   fun _ _ _ => ([10, 20, 30], [-1, 0, 5]), fun n => toString n⟩

/-- Recognizer for a deserializable docstore blob. -/
def FileData.isDocJson : FileData → Bool
  | .docJson _ => true
  | _ => false

/-! Helper lemmas about the dict model. -/

theorem dget_dset_self (d : SDict) (k v : String) : dget (dset d k v) k = some v := by
  induction d with
  | nil => simp [dset, dget]
  | cons p d ih =>
    by_cases h : p.1 = k
    · simp [dset, h, dget]
    · simp [dset, h, dget, ih]

theorem dget_dset_ne (d : SDict) (k k' v : String) (h : ¬ k' = k) :
    dget (dset d k' v) k = dget d k := by
  induction d with
  | nil => simp [dset, dget, h]
  | cons p d ih =>
    by_cases hp : p.1 = k'
    · simp [dset, hp, dget, h, hp ▸ h]
    · simp [dset, hp, dget, ih]

theorem dget_append (d l : SDict) (k : String) (h : dget d k = none) :
    dget (d ++ l) k = dget l k := by
  induction d with
  | nil => simp
  | cons p d ih =>
    by_cases hp : p.1 = k
    · simp [dget, hp] at h
    · simp [dget, hp] at h ⊢
      exact ih h

theorem dget_dsetdefault_self (d : SDict) (k v : String) :
    dget (dsetdefault d k v) k = (dget d k).orElse (fun _ => some v) := by
  unfold dsetdefault
  cases h : dget d k with
  | some w => simp [h, Option.orElse]
  | none => simp [h, Option.orElse, dget_append d [(k, v)] k h, dget]

theorem dget_eq_none_of_not_mem (d : SDict) (k : String)
    (h : k ∉ d.map Prod.fst) : dget d k = none := by
  induction d with
  | nil => rfl
  | cons p d ih =>
    simp only [List.map_cons, List.mem_cons] at h
    push_neg at h
    have hp : ¬ p.1 = k := fun hh => h.1 hh.symm
    simp [dget, hp, ih h.2]

theorem dget_dupdate (a b : SDict) (k : String) (hb : NodupKeys b) :
    dget (dupdate a b) k = (dget b k).orElse (fun _ => dget a k) := by
  induction b generalizing a with
  | nil => simp [dupdate, dget, Option.orElse]
  | cons p b ih =>
    have hb' : NodupKeys b := by
      have := hb
      simp only [NodupKeys, List.map_cons, List.nodup_cons] at this
      exact this.2
    have hmem : p.1 ∉ b.map Prod.fst := by
      have := hb
      simp only [NodupKeys, List.map_cons, List.nodup_cons] at this
      exact this.1
    have hfold : dupdate a (p :: b) = dupdate (dset a p.1 p.2) b := by
      simp [dupdate]
    rw [hfold, ih (dset a p.1 p.2) hb']
    by_cases hk : p.1 = k
    · subst hk
      rw [dget_eq_none_of_not_mem b p.1 hmem]
      simp [dget, Option.orElse, dget_dset_self]
    · simp [dget, hk, dget_dset_ne a k p.1 p.2 hk]

/-! Helper lemmas about batch embedding and the alignment invariant. -/

theorem embedTexts_append (e : Env) (ts us : List String) (vs ws : List Vec)
    (h1 : embedTexts e ts = some vs) (h2 : embedTexts e us = some ws) :
    embedTexts e (ts ++ us) = some (vs ++ ws) := by
  induction ts generalizing vs with
  | nil =>
    simp [embedTexts] at h1
    subst h1
    simpa using h2
  | cons t ts ih =>
    simp only [embedTexts] at h1
    cases he : e.embed t with
    | none => rw [he] at h1; exact absurd h1 (by simp)
    | some v =>
      rw [he] at h1
      cases hr : embedTexts e ts with
      | none => rw [hr] at h1; exact absurd h1 (by simp)
      | some vs0 =>
        rw [hr] at h1
        simp only [Option.some.injEq] at h1
        subst h1
        have hstep : embedTexts e (List.append ts us) = some (vs0 ++ ws) := ih vs0 hr
        simp only [List.cons_append, embedTexts, he, hstep]

theorem embedTexts_map_align (e : Env) (ds : Docstore) :
    ∀ rows : List Vec,
      embedTexts e (ds.map (fun p => p.2.page_content)) = some rows →
      rows.length = ds.length ∧
        ∀ pr ∈ ds.zip rows, e.embed pr.1.2.page_content = some pr.2 := by
  induction ds with
  | nil =>
    intro rows h
    simp [embedTexts] at h
    subst h
    simp
  | cons p ds ih =>
    intro rows h
    simp only [List.map_cons, embedTexts] at h
    cases he : e.embed p.2.page_content with
    | none => rw [he] at h; exact absurd h (by simp)
    | some v =>
      rw [he] at h
      cases hr : embedTexts e (ds.map (fun q => q.2.page_content)) with
      | none => rw [hr] at h; exact absurd h (by simp)
      | some vs =>
        rw [hr] at h
        simp only [Option.some.injEq] at h
        subst h
        obtain ⟨hlen, hall⟩ := ih vs hr
        refine ⟨by simp [hlen], ?_⟩
        intro pr hpr
        simp only [List.zip_cons_cons, List.mem_cons] at hpr
        rcases hpr with hpr | hpr
        · subst hpr; exact he
        · exact hall pr hpr

theorem attachIds_map_text (e : Env) (rs : List DocRec) :
    ∀ n, (attachIds e n rs).map (fun p => p.2.page_content) =
      rs.map (fun r => r.page_content) := by
  induction rs with
  | nil => intro n; rfl
  | cons r rs ih => intro n; simp [attachIds, ih]

theorem rebuildIndex_embeds (e : Env) (ds : Docstore) (idx : FaissIndex)
    (h : rebuildIndex e ds = .ok idx) :
    embedTexts e (ds.map (fun p => p.2.page_content)) = some idx.rows := by
  unfold rebuildIndex at h
  by_cases hds : ds.isEmpty
  · rw [if_pos hds] at h
    cases hd : dummyDim e with
    | error er => rw [hd] at h; exact absurd h (by simp)
    | ok d =>
      rw [hd] at h
      simp only [Except.ok.injEq] at h
      subst h
      rw [List.isEmpty_iff.mp hds]
      rfl
  · rw [if_neg hds] at h
    cases hemb : embedTexts e (ds.map (fun p => p.2.page_content)) with
    | none => rw [hemb] at h; exact absurd h (by simp)
    | some embs =>
      rw [hemb] at h
      simp only [Except.ok.injEq] at h
      subst h
      simp [FaissIndex.add, buildEmptyIndex]

theorem alignedB_saveLocal (e : Env) (fs : FS) (idx : FaissIndex) (ds : Docstore)
    (h : embedTexts e (ds.map (fun p => p.2.page_content)) = some idx.rows) :
    alignedB e (saveLocal fs idx ds) = true := by
  obtain ⟨hlen, hall⟩ := embedTexts_map_align e ds idx.rows h
  simp only [alignedB, saveLocal, Bool.and_eq_true, beq_iff_eq, List.all_eq_true]
  exact ⟨hlen, fun pr hpr => by simp [hall pr hpr]⟩

theorem length_filterMap_eq_countP {α β : Type} (f : α → Option β) (l : List α) :
    (l.filterMap f).length = l.countP (fun a => (f a).isSome) := by
  induction l with
  | nil => rfl
  | cons a l ih =>
    cases hf : f a with
    | none => simp [List.filterMap_cons, hf, List.countP_cons, ih]
    | some b => simp [List.filterMap_cons, hf, List.countP_cons, ih]

theorem cleanChunk_isSome (md0 : SDict) (c : Chunk) :
    (cleanChunk md0 c).isSome = isValidChunk c := by
  cases c with
  | nonDict => rfl
  | dict text meta =>
    simp only [cleanChunk, isValidChunk]
    by_cases h : cleanText text = ""
    · simp [h]
    · simp [h]

/-! Structural case analyses of the two mutations. -/

theorem upsert_ok_shape (e : Env) (fs : FS) (source0 : String)
    (chunks : List Chunk) (metadata : Option SDict) (n : Nat) (fs' : FS)
    (h : upsertChunksForSource e fs source0 chunks metadata = .ok (n, fs')) :
    ∃ idx0 ds index,
      loadOrBuild e fs = .ok (idx0, ds) ∧
      rebuildIndex e (keepOther ds (coerceSource source0)) = .ok index ∧
      (let cleaned := chunks.filterMap
        (cleanChunk (defaultMeta metadata (coerceSource source0)))
       (cleaned = [] ∧ n = 0 ∧
          fs' = saveLocal fs index (keepOther ds (coerceSource source0))) ∨
       (∃ vecs,
          embedTexts e ((chunks.filterMap
            (cleanChunk (defaultMeta metadata (coerceSource source0)))).map
              (fun r => r.page_content)) = some vecs ∧
          n = (chunks.filterMap
            (cleanChunk (defaultMeta metadata (coerceSource source0)))).length ∧
          fs' = saveLocal fs (index.add vecs)
            (keepOther ds (coerceSource source0) ++
              attachIds e 0 (chunks.filterMap
                (cleanChunk (defaultMeta metadata (coerceSource source0))))))) := by
  unfold upsertChunksForSource at h
  cases hl : loadOrBuild e fs with
  | error er => rw [hl] at h; exact absurd h (by simp)
  | ok p =>
    obtain ⟨idx0, ds⟩ := p
    rw [hl] at h
    simp only at h
    cases hr : rebuildIndex e (keepOther ds (coerceSource source0)) with
    | error er => rw [hr] at h; exact absurd h (by simp)
    | ok index =>
      rw [hr] at h
      simp only at h
      refine ⟨idx0, ds, index, rfl, hr, ?_⟩
      by_cases hcl : (chunks.filterMap
          (cleanChunk (defaultMeta metadata (coerceSource source0)))).isEmpty
      · rw [if_pos hcl] at h
        simp only [Except.ok.injEq, Prod.mk.injEq] at h
        exact Or.inl ⟨List.isEmpty_iff.mp hcl, h.1.symm, h.2.symm⟩
      · rw [if_neg hcl] at h
        cases hemb : embedTexts e ((chunks.filterMap
            (cleanChunk (defaultMeta metadata (coerceSource source0)))).map
              (fun r => r.page_content)) with
        | none => rw [hemb] at h; exact absurd h (by simp)
        | some vecs =>
          rw [hemb] at h
          simp only [Except.ok.injEq, Prod.mk.injEq] at h
          exact Or.inr ⟨vecs, rfl, h.1.symm, h.2.symm⟩

theorem delete_ok_shape (e : Env) (fs : FS) (source : String) (n : Nat) (fs' : FS)
    (h : deleteSource e fs source = .ok (n, fs')) :
    ∃ idx0 ds,
      loadOrBuild e fs = .ok (idx0, ds) ∧
      ((n = 0 ∧ fs' = fs ∧ countMatching ds source = 0) ∨
       (∃ index,
          rebuildIndex e (keepOther ds source) = .ok index ∧
          n = countMatching ds source ∧
          fs' = saveLocal fs index (keepOther ds source))) := by
  unfold deleteSource at h
  cases hl : loadOrBuild e fs with
  | error er => rw [hl] at h; exact absurd h (by simp)
  | ok p =>
    obtain ⟨idx0, ds⟩ := p
    rw [hl] at h
    simp only at h
    refine ⟨idx0, ds, rfl, ?_⟩
    by_cases hds : ds.isEmpty
    · rw [if_pos hds] at h
      simp only [Except.ok.injEq, Prod.mk.injEq] at h
      refine Or.inl ⟨h.1.symm, h.2.symm, ?_⟩
      rw [List.isEmpty_iff.mp hds]
      rfl
    · rw [if_neg hds] at h
      by_cases hrem : countMatching ds source = 0
      · rw [if_pos hrem] at h
        simp only [Except.ok.injEq, Prod.mk.injEq] at h
        exact Or.inl ⟨h.1.symm, h.2.symm, hrem⟩
      · rw [if_neg hrem] at h
        cases hr : rebuildIndex e (keepOther ds source) with
        | error er => rw [hr] at h; exact absurd h (by simp)
        | ok index =>
          rw [hr] at h
          simp only [Except.ok.injEq, Prod.mk.injEq] at h
          exact Or.inr ⟨index, rfl, h.1.symm, h.2.symm⟩

theorem upsert_ok_aligned (e : Env) (fs : FS) (source0 : String)
    (chunks : List Chunk) (metadata : Option SDict) (n : Nat) (fs' : FS)
    (h : upsertChunksForSource e fs source0 chunks metadata = .ok (n, fs')) :
    alignedB e fs' = true := by
  obtain ⟨idx0, ds, index, _hl, hr, hcase⟩ :=
    upsert_ok_shape e fs source0 chunks metadata n fs' h
  have hkept := rebuildIndex_embeds e (keepOther ds (coerceSource source0)) index hr
  rcases hcase with ⟨_hcl, _hn, hfs⟩ | ⟨vecs, hemb, _hn, hfs⟩
  · subst hfs
    exact alignedB_saveLocal e fs index (keepOther ds (coerceSource source0)) hkept
  · subst hfs
    apply alignedB_saveLocal
    have htexts : (attachIds e 0 (chunks.filterMap
        (cleanChunk (defaultMeta metadata (coerceSource source0))))).map
          (fun p => p.2.page_content) =
        (chunks.filterMap
          (cleanChunk (defaultMeta metadata (coerceSource source0)))).map
          (fun r => r.page_content) :=
      attachIds_map_text e _ 0
    rw [List.map_append, htexts]
    exact embedTexts_append e _ _ _ _ hkept hemb

theorem delete_ok_aligned_or_same (e : Env) (fs : FS) (source : String)
    (n : Nat) (fs' : FS) (h : deleteSource e fs source = .ok (n, fs')) :
    fs' = fs ∨ alignedB e fs' = true := by
  obtain ⟨idx0, ds, _hl, hcase⟩ := delete_ok_shape e fs source n fs' h
  rcases hcase with ⟨_, hfs, _⟩ | ⟨index, hr, _, hfs⟩
  · exact Or.inl hfs
  · subst hfs
    exact Or.inr (alignedB_saveLocal e fs index (keepOther ds source)
      (rebuildIndex_embeds e (keepOther ds source) index hr))

theorem loadDocstore_not_json (f : FileData) (h : f.isDocJson = false) :
    loadDocstore (some f) = .error .jsonDecode := by
  cases f with
  | docJson ds => simp [FileData.isDocJson] at h
  | faissBlob idx => rfl
  | emptyFile => rfl
  | corrupt => rfl

theorem loadOrBuild_ok_inv (e : Env) (fs : FS) (idx : FaissIndex) (ds : Docstore)
    (h : loadOrBuild e fs = .ok (idx, ds)) :
    loadDocstore fs.docFile = .ok ds ∧
    (fs.faissFile = some (.faissBlob idx) ∨
      ((fs.faissFile = none ∨ fs.faissFile = some .emptyFile) ∧ idx.rows = [])) := by
  unfold loadOrBuild at h
  cases hld : loadDocstore fs.docFile with
  | error er => rw [hld] at h; exact absurd h (by simp)
  | ok ds1 =>
    rw [hld] at h
    cases hff : fs.faissFile with
    | none =>
      rw [hff] at h
      cases hd : dummyDim e with
      | error er => rw [hd] at h; exact absurd h (by simp)
      | ok d =>
        rw [hd] at h
        simp only [Except.ok.injEq, Prod.mk.injEq] at h
        obtain ⟨hidx, hds⟩ := h
        subst hidx
        subst hds
        exact ⟨rfl, Or.inr ⟨Or.inl rfl, rfl⟩⟩
    | some fd =>
      rw [hff] at h
      cases fd with
      | docJson ds2 => exact absurd h (by simp)
      | corrupt => exact absurd h (by simp)
      | faissBlob idx0 =>
        simp only [Except.ok.injEq, Prod.mk.injEq] at h
        obtain ⟨hidx, hds⟩ := h
        subst hidx
        subst hds
        exact ⟨rfl, Or.inl rfl⟩
      | emptyFile =>
        cases hd : dummyDim e with
        | error er => rw [hd] at h; exact absurd h (by simp)
        | ok d =>
          rw [hd] at h
          simp only [Except.ok.injEq, Prod.mk.injEq] at h
          obtain ⟨hidx, hds⟩ := h
          subst hidx
          subst hds
          exact ⟨rfl, Or.inr ⟨Or.inr rfl, rfl⟩⟩

/-! Claim theorems. -/

/-- Claim C1 counterexample: the claim asserts that `load` returns an empty
index and empty record store whenever either persisted file is missing,
zero-length or undeserializable, never raising, and that a namespace with only
one of the two files is treated as empty. On the code, (i) a zero-length
docstore file makes `_load_or_build` raise a JSON decode error instead of
returning the empty pair, and (ii) a namespace holding only a docstore file is
loaded as that non-empty store paired with a fresh empty index, not as empty. -/
theorem loadOrBuild_claim_counterexample :
    loadOrBuild envW ⟨none, some .emptyFile⟩ = .error .jsonDecode ∧
    loadOrBuild envW ⟨none, some (.docJson [("k", ⟨"t", [("source", "s")]⟩)])⟩ =
      .ok (buildEmptyIndex 1, [("k", ⟨"t", [("source", "s")]⟩)]) :=
  ⟨rfl, rfl⟩

/-- Claim C1 (amended): `_load_or_build` returns an empty record store only
when the docstore file is missing, returns the decoded store when that file
holds well-formed JSON, and raises when the file is present but
undeserializable (including zero-length); the index side degrades to an empty
index when the FAISS file is missing or zero-length, so a namespace with only
the docstore file present loads that store paired with an empty index rather
than being treated as empty. -/
theorem loadOrBuild_partial_or_corrupt_behavior (e : Env) (fs : FS) :
    (∀ f, fs.docFile = some f → f.isDocJson = false →
      loadOrBuild e fs = .error .jsonDecode) ∧
    (∀ idx ds, loadOrBuild e fs = .ok (idx, ds) →
      (fs.docFile = none → ds = []) ∧
      (∀ ds0, fs.docFile = some (.docJson ds0) → ds = ds0) ∧
      ((fs.faissFile = none ∨ fs.faissFile = some .emptyFile) → idx.rows = [])) := by
  constructor
  · intro f hdf hj
    unfold loadOrBuild
    rw [hdf, loadDocstore_not_json f hj]
  · intro idx ds h
    obtain ⟨hld, hff⟩ := loadOrBuild_ok_inv e fs idx ds h
    refine ⟨?_, ?_, ?_⟩
    · intro hdf
      rw [hdf] at hld
      simp only [loadDocstore, Except.ok.injEq] at hld
      exact hld.symm
    · intro ds0 hdf
      rw [hdf] at hld
      simp only [loadDocstore, Except.ok.injEq] at hld
      exact hld.symm
    · intro hcase
      rcases hff with hfb | ⟨_, hrows⟩
      · rcases hcase with hne | hemp
        · rw [hne] at hfb; exact absurd hfb (by simp)
        · rw [hemp] at hfb
          simp only [Option.some.injEq] at hfb
          exact absurd hfb (by simp)
      · exact hrows

/-- Witness for the amended C1 theorem at a concrete undeserializable file. -/
theorem loadOrBuild_partial_or_corrupt_witness :
    loadOrBuild envW ⟨none, some .corrupt⟩ = .error .jsonDecode :=
  (loadOrBuild_partial_or_corrupt_behavior envW ⟨none, some .corrupt⟩).1
    .corrupt rfl rfl

/-- Claim C2 counterexample: the claim asserts the two renames commit as a
unit, no interleaved state ever being visible after a failure between them.
In the code the FAISS rename happens strictly before the docstore rename, so
the state after the first rename — visible on disk if the process dies before
`_save_docstore` — pairs the new index blob with the old record-store blob:
it is neither the prior pair nor the new pair. -/
theorem saveLocal_interleaved_state_counterexample :
    (saveStates ⟨some (.faissBlob ⟨1, [[1]]⟩), some (.docJson [("a", ⟨"x", []⟩)])⟩
        ⟨1, [[2]]⟩ [("b", ⟨"y", []⟩)]).get? 1 =
      some ⟨some (.faissBlob ⟨1, [[2]]⟩), some (.docJson [("a", ⟨"x", []⟩)])⟩ ∧
    ¬ (⟨some (.faissBlob ⟨1, [[2]]⟩), some (.docJson [("a", ⟨"x", []⟩)])⟩ : FS) =
      ⟨some (.faissBlob ⟨1, [[1]]⟩), some (.docJson [("a", ⟨"x", []⟩)])⟩ ∧
    ¬ (⟨some (.faissBlob ⟨1, [[2]]⟩), some (.docJson [("a", ⟨"x", []⟩)])⟩ : FS) =
      saveLocal ⟨some (.faissBlob ⟨1, [[1]]⟩), some (.docJson [("a", ⟨"x", []⟩)])⟩
        ⟨1, [[2]]⟩ [("b", ⟨"y", []⟩)] :=
  ⟨rfl, by decide, by decide⟩

/-- Claim C2 (amended): `save_local` replaces each of the two files atomically
by a temp-file write followed by a rename, but the two renames are sequential,
index first: the visible states run from the intact prior pair, through the
new index paired with the prior docstore, to the fully new pair, and each step
changes at most one of the two files. -/
theorem saveLocal_per_file_atomic_sequential (fs : FS) (idx : FaissIndex)
    (ds : Docstore) :
    (saveStates fs idx ds).head? = some fs ∧
    (saveStates fs idx ds).getLast? = some (saveLocal fs idx ds) ∧
    (saveStates fs idx ds).get? 1 = some ⟨some (.faissBlob idx), fs.docFile⟩ ∧
    (saveStates fs idx ds).Chain'
      (fun a b => a.faissFile = b.faissFile ∨ a.docFile = b.docFile) := by
  refine ⟨rfl, rfl, rfl, ?_⟩
  simp [saveStates, List.chain'_cons, List.chain'_singleton, saveLocal]

/-- Claim C3: invariant I1 is preserved by every successful sequence of
upserts and deletes — starting from a state where the persisted index rows
align one-to-one with the persisted record sequence (for example a fresh
namespace), after each successful operation the persisted index has exactly
one row per record and the row at position i is the embedding of the record
at position i. -/
theorem alignment_invariant_preserved (e : Env) (ops : List Op) :
    ∀ fs fs', alignedB e fs = true → runOps e fs ops = some fs' →
      alignedB e fs' = true := by
  induction ops with
  | nil =>
    intro fs fs' h hr
    simp only [runOps, Option.some.injEq] at hr
    exact hr ▸ h
  | cons op rest ih =>
    intro fs fs' h hr
    simp only [runOps] at hr
    cases ha : applyOp e fs op with
    | error er => rw [ha] at hr; exact absurd hr (by simp)
    | ok p =>
      rw [ha] at hr
      obtain ⟨n, fs1⟩ := p
      have h1 : alignedB e fs1 = true := by
        cases op with
        | up s cs md => exact upsert_ok_aligned e fs s cs md n fs1 ha
        | del s =>
          rcases delete_ok_aligned_or_same e fs s n fs1 ha with hsame | hal
          · exact hsame ▸ h
          · exact hal
      exact ih fs1 fs' h1 hr

/-- Witness for C3: a fresh namespace, one upsert and one delete. -/
theorem alignment_invariant_witness :
    alignedB envW ⟨some (.faissBlob ⟨1, []⟩), some (.docJson [])⟩ = true :=
  alignment_invariant_preserved envW
    [Op.up "s" [Chunk.dict "a" none] none, Op.del "s"]
    ⟨none, none⟩ ⟨some (.faissBlob ⟨1, []⟩), some (.docJson [])⟩ rfl rfl

/-- Claim C4 counterexample: the claim asserts that an embedding failure on a
newly supplied chunk only skips that chunk, and that when every new chunk
fails while the kept records re-embed successfully the upsert still succeeds
with count 0 and persists the rebuild. On the code, `_embed_texts` is one
batch call: (i) with one good and one bad new chunk the whole upsert raises
instead of returning count 1, and (ii) with a successfully re-embedded kept
record and a single failing new chunk the upsert raises instead of returning
count 0 with the rebuild persisted. -/
theorem upsert_skip_policy_counterexample :
    upsertChunksForSource envBad ⟨none, none⟩ "s"
      [Chunk.dict "ok" none, Chunk.dict "bad" none] none = .error .embedFail ∧
    upsertChunksForSource envBad
      ⟨some (.faissBlob ⟨1, [[1]]⟩),
       some (.docJson [("0", ⟨"k", [("source", "other")]⟩)])⟩ "s"
      [Chunk.dict "bad" none] none = .error .embedFail :=
  ⟨rfl, rfl⟩

/-- Claim C4 (amended): chunks are only skipped when they are non-mappings or
normalize to empty text; if the batch embedding of the surviving new chunks
fails, the entire upsert raises `embedFail` and nothing is persisted (the
operation never reaches `save_local`), even when the kept records were
re-embedded successfully. -/
theorem upsert_aborts_on_new_chunk_embed_failure (e : Env) (fs : FS)
    (src : String) (chunks : List Chunk) (metadata : Option SDict)
    (idx0 : FaissIndex) (ds : Docstore) (index : FaissIndex)
    (hload : loadOrBuild e fs = .ok (idx0, ds))
    (hreb : rebuildIndex e (keepOther ds (coerceSource src)) = .ok index)
    (hemb : embedTexts e ((chunks.filterMap
      (cleanChunk (defaultMeta metadata (coerceSource src)))).map
        (fun r => r.page_content)) = none) :
    upsertChunksForSource e fs src chunks metadata = .error .embedFail := by
  have hcl : ¬ (chunks.filterMap
      (cleanChunk (defaultMeta metadata (coerceSource src)))).isEmpty = true := by
    intro hempty
    rw [List.isEmpty_iff.mp hempty] at hemb
    simp [embedTexts] at hemb
  unfold upsertChunksForSource
  rw [hload]
  simp only
  rw [hreb]
  simp only
  rw [if_neg hcl, hemb]

/-- Witness for the amended C4 theorem at a concrete failing chunk. -/
theorem upsert_aborts_witness :
    upsertChunksForSource envBad ⟨none, none⟩ "t" [Chunk.dict "bad" none] none =
      .error .embedFail :=
  upsert_aborts_on_new_chunk_embed_failure envBad ⟨none, none⟩ "t"
    [Chunk.dict "bad" none] none ⟨1, []⟩ [] ⟨1, []⟩ rfl rfl rfl

/-- Claim C5 counterexample: the claim asserts that an empty source string
makes upsert and delete fail immediately as caller errors without touching
storage. On the code, upsert with the empty source succeeds: the falsy string
is silently replaced by `"uploaded"`, one chunk is added under that label and
both files are written; delete with the empty source performs a normal load
and returns 0 without any error. -/
theorem empty_source_claim_counterexample :
    upsertChunksForSource envW ⟨none, none⟩ "" [Chunk.dict "a" none] none =
      .ok (1, ⟨some (.faissBlob ⟨1, [[1]]⟩),
               some (.docJson [("0", ⟨"a", [("source", "uploaded")]⟩)])⟩) ∧
    deleteSource envW ⟨none, none⟩ "" = .ok (0, ⟨none, none⟩) :=
  ⟨rfl, rfl⟩

/-- Claim C5 (amended): an empty source on upsert is coerced to the default
label `"uploaded"` and the operation proceeds exactly as if that label had
been passed; an empty source on delete is treated as an ordinary label, and
when no record carries source `""` the call returns 0 with the namespace
untouched — neither operation rejects the empty source. -/
theorem empty_source_coerced_not_rejected (e : Env) (fs : FS)
    (chunks : List Chunk) (metadata : Option SDict) :
    upsertChunksForSource e fs "" chunks metadata =
      upsertChunksForSource e fs "uploaded" chunks metadata ∧
    (∀ idx ds, loadOrBuild e fs = .ok (idx, ds) →
      countMatching ds "" = 0 → deleteSource e fs "" = .ok (0, fs)) := by
  constructor
  · rfl
  · intro idx ds hload hcnt
    unfold deleteSource
    rw [hload]
    simp only
    by_cases hds : ds.isEmpty
    · rw [if_pos hds]
    · rw [if_neg hds, if_pos hcnt]

/-- Witness for the amended C5 theorem on a fresh namespace. -/
theorem empty_source_coerced_witness :
    upsertChunksForSource envW ⟨none, none⟩ "" [] none =
      upsertChunksForSource envW ⟨none, none⟩ "uploaded" [] none ∧
    deleteSource envW ⟨none, none⟩ "" = .ok (0, ⟨none, none⟩) :=
  ⟨(empty_source_coerced_not_rejected envW ⟨none, none⟩ [] none).1,
   (empty_source_coerced_not_rejected envW ⟨none, none⟩ [] none).2
     ⟨1, []⟩ [] rfl rfl⟩

/-- Claim C6: the source key stored in a new record's metadata comes from the
chunk's own meta mapping when it has one, else from the caller-supplied
default metadata when it has one, and only otherwise from the (non-empty)
source argument; consequently a record created by `upsert(source="S")` whose
chunk meta labels it `"T"` is not removed by a later delete of `"S"` nor by a
later upsert of `"S"`. -/
theorem upsert_source_label_selection :
    (∀ (metadata : Option SDict) (src text : String) (cmeta : Option SDict)
        (r : DocRec),
      ¬ src = "" → NodupKeys (cmeta.getD []) →
      cleanChunk (defaultMeta metadata (coerceSource src))
        (Chunk.dict text cmeta) = some r →
      dget r.metadata "source" =
        ((dget (cmeta.getD []) "source").orElse (fun _ =>
          ((dget (metadata.getD []) "source").orElse (fun _ => some src))))) ∧
    (upsertChunksForSource envW ⟨none, none⟩ "S"
        [Chunk.dict "x" (some [("source", "T")])] none =
      .ok (1, ⟨some (.faissBlob ⟨1, [[1]]⟩),
               some (.docJson [("0", ⟨"x", [("source", "T")]⟩)])⟩) ∧
     deleteSource envW
        ⟨some (.faissBlob ⟨1, [[1]]⟩),
         some (.docJson [("0", ⟨"x", [("source", "T")]⟩)])⟩ "S" =
      .ok (0, ⟨some (.faissBlob ⟨1, [[1]]⟩),
               some (.docJson [("0", ⟨"x", [("source", "T")]⟩)])⟩) ∧
     upsertChunksForSource envW
        ⟨some (.faissBlob ⟨1, [[1]]⟩),
         some (.docJson [("0", ⟨"x", [("source", "T")]⟩)])⟩ "S" [] none =
      .ok (0, ⟨some (.faissBlob ⟨1, [[1]]⟩),
               some (.docJson [("0", ⟨"x", [("source", "T")]⟩)])⟩)) := by
  constructor
  · intro metadata src text cmeta r hsrc hnd hclean
    have hcs : coerceSource src = src := if_neg hsrc
    rw [hcs] at hclean
    unfold cleanChunk at hclean
    simp only at hclean
    by_cases ht : cleanText text = ""
    · rw [if_pos ht] at hclean
      exact absurd hclean (by simp)
    · rw [if_neg ht] at hclean
      simp only [Option.some.injEq] at hclean
      subst hclean
      simp only
      rw [dget_dupdate (defaultMeta metadata src) (cmeta.getD []) "source" hnd]
      have hdm : dget (defaultMeta metadata src) "source" =
          (dget (metadata.getD []) "source").orElse (fun _ => some src) :=
        dget_dsetdefault_self (metadata.getD []) "source" src
      simp only [hdm]
  · exact ⟨rfl, rfl, rfl⟩

/-- Witness for C6: a chunk whose own meta carries the source label. -/
theorem upsert_source_label_selection_witness :
    dget [("source", "T")] "source" =
      ((dget [("source", "T")] "source").orElse (fun _ =>
        ((dget ([] : SDict) "source").orElse (fun _ => some "S")))) :=
  upsert_source_label_selection.1 none "S" "x" (some [("source", "T")])
    ⟨"x", [("source", "T")]⟩ (by decide) (by unfold NodupKeys; decide) rfl

/-- Claim C7: for a non-empty source, upsert with an empty chunk sequence
returns 0 and still removes every record whose metadata source equals the
target, persisting the removal: the saved docstore is exactly the records of
other sources and the saved index is the rebuild from them. -/
theorem upsert_empty_chunks_clears_source (e : Env) (fs : FS) (src : String)
    (metadata : Option SDict) (n : Nat) (fs' : FS) (hsrc : ¬ src = "")
    (h : upsertChunksForSource e fs src [] metadata = .ok (n, fs')) :
    n = 0 ∧ ∃ idx0 ds index,
      loadOrBuild e fs = .ok (idx0, ds) ∧
      rebuildIndex e (keepOther ds src) = .ok index ∧
      fs'.faissFile = some (.faissBlob index) ∧
      fs'.docFile = some (.docJson (keepOther ds src)) := by
  obtain ⟨idx0, ds, index, hl, hr, hcase⟩ :=
    upsert_ok_shape e fs src [] metadata n fs' h
  have hcs : coerceSource src = src := if_neg hsrc
  rw [hcs] at hr hcase
  rcases hcase with ⟨_hcl, hn, hfs⟩ | ⟨vecs, hemb, hn, hfs⟩
  · exact ⟨hn, idx0, ds, index, hl, hr, by rw [hfs]; rfl, by rw [hfs]; rfl⟩
  · have hvecs : vecs = [] := by
      simp only [List.filterMap_nil, List.map_nil, embedTexts,
        Option.some.injEq] at hemb
      exact hemb.symm
    subst hvecs
    have hidx : index.add [] = index := by
      simp [FaissIndex.add]
    refine ⟨by simpa using hn, idx0, ds, index, hl, hr, ?_, ?_⟩
    · rw [hfs]
      simp only [List.filterMap_nil, attachIds, List.append_nil, hidx]
      rfl
    · rw [hfs]
      simp only [List.filterMap_nil, attachIds, List.append_nil]
      rfl

/-- Witness for C7: a namespace holding one record of the target source and
one of another source. -/
theorem upsert_empty_chunks_clears_source_witness :
    (0 : Nat) = 0 ∧ ∃ idx0 ds index,
      loadOrBuild envW
        ⟨some (.faissBlob ⟨1, [[1], [1]]⟩),
         some (.docJson [("0", ⟨"a", [("source", "s")]⟩),
                         ("1", ⟨"b", [("source", "t")]⟩)])⟩ = .ok (idx0, ds) ∧
      rebuildIndex envW (keepOther ds "s") = .ok index ∧
      (⟨some (.faissBlob ⟨1, [[1]]⟩),
        some (.docJson [("1", ⟨"b", [("source", "t")]⟩)])⟩ : FS).faissFile =
        some (.faissBlob index) ∧
      (⟨some (.faissBlob ⟨1, [[1]]⟩),
        some (.docJson [("1", ⟨"b", [("source", "t")]⟩)])⟩ : FS).docFile =
        some (.docJson (keepOther ds "s")) :=
  upsert_empty_chunks_clears_source envW
    ⟨some (.faissBlob ⟨1, [[1], [1]]⟩),
     some (.docJson [("0", ⟨"a", [("source", "s")]⟩),
                     ("1", ⟨"b", [("source", "t")]⟩)])⟩ "s" none 0
    ⟨some (.faissBlob ⟨1, [[1]]⟩),
     some (.docJson [("1", ⟨"b", [("source", "t")]⟩)])⟩ (by decide) rfl

/-- Claim C8: when no record of the namespace carries the target source,
delete returns 0 and performs no write: the returned state is exactly the
input state, so both persisted blobs are unchanged. -/
theorem delete_missing_source_no_write (e : Env) (fs : FS) (src : String)
    (idx : FaissIndex) (ds : Docstore)
    (hload : loadOrBuild e fs = .ok (idx, ds))
    (hnone : countMatching ds src = 0) :
    deleteSource e fs src = .ok (0, fs) := by
  unfold deleteSource
  rw [hload]
  simp only
  by_cases hds : ds.isEmpty
  · rw [if_pos hds]
  · rw [if_neg hds, if_pos hnone]

/-- Witness for C8: deleting a source absent from a one-record namespace. -/
theorem delete_missing_source_no_write_witness :
    deleteSource envW
      ⟨some (.faissBlob ⟨1, [[1]]⟩),
       some (.docJson [("0", ⟨"a", [("source", "t")]⟩)])⟩ "s" =
      .ok (0, ⟨some (.faissBlob ⟨1, [[1]]⟩),
               some (.docJson [("0", ⟨"a", [("source", "t")]⟩)])⟩) :=
  delete_missing_source_no_write envW
    ⟨some (.faissBlob ⟨1, [[1]]⟩),
     some (.docJson [("0", ⟨"a", [("source", "t")]⟩)])⟩ "s"
    ⟨1, [[1]]⟩ [("0", ⟨"a", [("source", "t")]⟩)] rfl rfl

/-- Claim C9: every hit emitted by search comes from a validated position
strictly inside `[0, length)` of the loaded record sequence — FAISS ranks that
are negative or at least the store length are discarded, whatever the FAISS
oracle returns — and on an empty index or a query that strips to the empty
string the result is the empty list rather than an error. -/
theorem ragSearch_positions_validated (e : Env) (fs : FS) (q : String) (k : Nat)
    (hits : List Hit) (h : ragSearch e fs q k = .ok hits) :
    (∀ hit ∈ hits, ∃ idx ds, loadOrBuild e fs = .ok (idx, ds) ∧
      ∃ p kv, p < ds.length ∧ ds.get? p = some kv ∧
        hit.text = kv.2.page_content ∧ hit.metadata = kv.2.metadata) ∧
    (∀ idx ds, loadOrBuild e fs = .ok (idx, ds) →
      (idx.ntotal = 0 ∨ pyStrip q = "") → hits = []) := by
  unfold ragSearch at h
  cases hl : loadOrBuild e fs with
  | error er => rw [hl] at h; exact absurd h (by simp)
  | ok p =>
    obtain ⟨index, docstore⟩ := p
    rw [hl] at h
    simp only at h
    by_cases hg : index.ntotal = 0 ∨ pyStrip q = ""
    · rw [if_pos hg] at h
      simp only [Except.ok.injEq] at h
      subst h
      constructor
      · intro hit hmem
        exact absurd hmem (by simp)
      · intro idx ds _ _
        rfl
    · rw [if_neg hg] at h
      cases hq : e.embed q with
      | none => rw [hq] at h; exact absurd h (by simp)
      | some qv =>
        rw [hq] at h
        simp only [Except.ok.injEq] at h
        subst h
        constructor
        · intro hit hmem
          rw [List.mem_filterMap] at hmem
          obtain ⟨rs, _hrs, hf⟩ := hmem
          refine ⟨index, docstore, rfl, ?_⟩
          by_cases hb : rs.1 < 0 ∨ (docstore.length : Int) ≤ rs.1
          · rw [if_pos hb] at hf
            exact absurd hf (by simp)
          · rw [if_neg hb] at hf
            push_neg at hb
            obtain ⟨hb1, hb2⟩ := hb
            cases hkv : docstore.get? rs.1.toNat with
            | none => rw [hkv] at hf; exact absurd hf (by simp)
            | some kv =>
              rw [hkv] at hf
              simp only [Option.some.injEq] at hf
              subst hf
              exact ⟨rs.1.toNat, kv, by omega, hkv, rfl, rfl⟩
        · intro idx ds hl2 hcond
          simp only [Except.ok.injEq, Prod.mk.injEq] at hl2
          obtain ⟨h1, h2⟩ := hl2
          subst h1
          exact absurd hcond hg

/-- Witness for C9: a one-record namespace with a FAISS oracle returning the
ranks -1, 0 and 5; only rank 0 survives validation. -/
theorem ragSearch_positions_validated_witness :
    (∀ hit ∈ ([⟨"a", [("source", "s")], 20⟩] : List Hit), ∃ idx ds,
      loadOrBuild envS
        ⟨some (.faissBlob ⟨1, [[1]]⟩),
         some (.docJson [("0", ⟨"a", [("source", "s")]⟩)])⟩ = .ok (idx, ds) ∧
      ∃ p kv, p < ds.length ∧ ds.get? p = some kv ∧
        hit.text = kv.2.page_content ∧ hit.metadata = kv.2.metadata) ∧
    (∀ idx ds, loadOrBuild envS
        ⟨some (.faissBlob ⟨1, [[1]]⟩),
         some (.docJson [("0", ⟨"a", [("source", "s")]⟩)])⟩ = .ok (idx, ds) →
      (idx.ntotal = 0 ∨ pyStrip "q" = "") →
      ([⟨"a", [("source", "s")], 20⟩] : List Hit) = []) :=
  ragSearch_positions_validated envS
    ⟨some (.faissBlob ⟨1, [[1]]⟩),
     some (.docJson [("0", ⟨"a", [("source", "s")]⟩)])⟩ "q" 5
    [⟨"a", [("source", "s")], 20⟩] rfl

/-- Claim C10: upsert silently skips chunk elements that are not mappings and
mappings whose normalized text is empty, and whenever it returns, the returned
count equals the number of mapping elements with non-empty normalized text. -/
theorem upsert_count_eq_valid_chunks (e : Env) (fs : FS) (src : String)
    (chunks : List Chunk) (metadata : Option SDict) (n : Nat) (fs' : FS)
    (h : upsertChunksForSource e fs src chunks metadata = .ok (n, fs')) :
    n = chunks.countP isValidChunk := by
  obtain ⟨idx0, ds, index, _hl, _hr, hcase⟩ :=
    upsert_ok_shape e fs src chunks metadata n fs' h
  have hext : (fun c => (cleanChunk (defaultMeta metadata (coerceSource src)) c).isSome)
      = isValidChunk :=
    funext (cleanChunk_isSome (defaultMeta metadata (coerceSource src)))
  have hcnt : (chunks.filterMap
      (cleanChunk (defaultMeta metadata (coerceSource src)))).length =
      chunks.countP isValidChunk := by
    rw [length_filterMap_eq_countP, hext]
  rcases hcase with ⟨hcl, hn, _⟩ | ⟨vecs, _, hn, _⟩
  · rw [hn, ← hcnt, hcl]
    rfl
  · rw [hn, hcnt]

/-- Witness for C10: one non-mapping, one empty text, one text of spaces only
and one valid chunk give count 1. -/
theorem upsert_count_eq_valid_chunks_witness :
    (1 : Nat) = ([Chunk.nonDict, Chunk.dict "" none, Chunk.dict "  " none,
      Chunk.dict "a" none] : List Chunk).countP isValidChunk :=
  upsert_count_eq_valid_chunks envW ⟨none, none⟩ "s"
    [Chunk.nonDict, Chunk.dict "" none, Chunk.dict "  " none,
     Chunk.dict "a" none] none 1
    ⟨some (.faissBlob ⟨1, [[1]]⟩),
     some (.docJson [("0", ⟨"a", [("source", "s")]⟩)])⟩ rfl

end RagModel
